import Mathlib

/-!
Verification of the KMZ → lots.json conversion pipeline
(`scripts/convert_kmz_to_lots.py`).

The program is embedded shallowly:

* Python strings are Lean `String`s; every string operation the program
  performs (`split`, `strip`, slicing, `upper`, `in`, `endswith`,
  formatting) is defined here over `String.data` by structural recursion,
  so that concrete runs reduce inside the kernel.
* Python floats are embedded as exact rationals (`ℚ`).  Decimal literals
  in coordinate text are taken at their exact decimal value; the one
  float constant the program derives through `math.cos`
  (`METERS_PER_DEG_LON`) is embedded as the exact rational value of the
  IEEE-754 double the program computes.
* Python exceptions are `Except String` / a dedicated error type;
  a raised exception aborts the enclosing computation, as in the source.
* The XML element tree is modelled by records mirroring exactly the
  shape the program reads: folders with ids holding placemarks, each
  placemark holding polygon / line / point geometry nodes whose
  coordinate text may be absent (`none`, the `is None` case) or empty.
* Python dicts that the program only extends (`layer_counts`,
  `by_layer`, `by_geometry`) are association lists with insertion-order
  update.  The `set()` iteration in `build_lots_json` has no fixed
  order in CPython (string hashing is seed-randomized per process), so
  the enumeration order of the distinct layer names is an input of a
  run, like the generation date: `build_lots_json_ord` takes it as a
  parameter, and `build_lots_json` is its instance at one canonical
  order (first occurrence).
-/

/-! ## Character-list string primitives (Python `str` operations) -/

/-- Split a character list at every character satisfying `p`
(Python `str.split(sep)` for a one-character separator, keeping
empty pieces). -/
def splitBy (p : Char → Bool) : List Char → List (List Char)
  | [] => [[]]
  | x :: xs =>
    let r := splitBy p xs
    if p x then [] :: r
    else
      match r with
      | [] => [[x]]
      | h :: t => (x :: h) :: t

/-- Python whitespace for `str.split()` / `str.strip()`. -/
def pySpace (c : Char) : Bool :=
  c = ' ' || c = '\t' || c = '\n' || c = '\x0d' || c = '\x0b' || c = '\x0c'

/-- Python `str.split()` with no argument: split on whitespace runs,
dropping empty fields (which also subsumes the `strip()` the program
applies first). -/
def wsTokens (cs : List Char) : List (List Char) :=
  (splitBy pySpace cs).filter (fun t => !t.isEmpty)

/-- Value of a run of decimal digit characters, most significant first. -/
def digitsVal (cs : List Char) : ℕ :=
  cs.foldl (fun a c => 10 * a + (c.toNat - 48)) 0

/-- ASCII upper-casing of one character (Python `str.upper` restricted to
ASCII, which is all the layer-name filter compares). -/
def upAscii (c : Char) : Char :=
  if 97 ≤ c.toNat && c.toNat ≤ 122 then Char.ofNat (c.toNat - 32) else c

/-- Python `str.upper()`. -/
def pyUpper (s : String) : String := ⟨s.data.map upAscii⟩

/-- Python substring containment `sub in s`. -/
def hasSub (sub : List Char) : List Char → Bool
  | [] => sub.isEmpty
  | c :: rest => sub.isPrefixOf (c :: rest) || hasSub sub rest

/-- Python `pathlib.Path(s).name` for ordinary forward-slash paths:
the part after the last separator. -/
def pyBasename (s : String) : String :=
  ⟨(splitBy (fun c => c = '/') s.data).getLastD []⟩

/-- Decimal digit characters of `n`, most significant first, accumulator
style with explicit fuel (fuel `n + 1` always suffices). -/
def decAux : ℕ → ℕ → List Char → List Char
  | 0, _, acc => acc
  | f + 1, n, acc =>
    if n < 10 then Char.ofNat (48 + n) :: acc
    else decAux f (n / 10) (Char.ofNat (48 + n % 10) :: acc)

/-- Decimal rendering of a natural number (Python `"%d"`). -/
def decChars (n : ℕ) : List Char := decAux (n + 1) n []

/-- Python `f"{n:03d}"`: decimal rendering zero-padded to width 3. -/
def pad3 (n : ℕ) : List Char :=
  List.replicate (3 - (decChars n).length) '0' ++ decChars n

/-! ## Numeric constants (source lines 32–35)

`PHARR_LAT`, `PHARR_LON` are the decimal literals of the source.
`METERS_PER_DEG_LON` is computed by the source as
`111320 * math.cos(PHARR_LAT * math.pi / 180)`; since that is a float
computation, it is embedded as the exact rational value of the IEEE-754
double the source obtains, namely `0x1.869ce0fbde2ecp+16`. -/

def PHARR_LAT : ℚ := 26.06669701044433

def PHARR_LON : ℚ := -98.20517760083658

def METERS_PER_DEG_LAT : ℚ := 111320

def METERS_PER_DEG_LON : ℚ := 1717933297334459 / 17179869184

/-- Round-half-to-even on rationals (the rounding Python `round` uses). -/
def roundHalfEven (q : ℚ) : ℤ :=
  if q - ⌊q⌋ = 1 / 2 then (if ⌊q⌋ % 2 = 0 then ⌊q⌋ else ⌊q⌋ + 1) else round q

/-- Python `round(x, 2)` on the rational value. -/
def pyRound2 (q : ℚ) : ℚ := (roundHalfEven (q * 100) : ℚ) / 100

/-- Local-meter northing used by `compute_stats` (source lines 414–415). -/
def localY (lat : ℚ) : ℚ := (lat - PHARR_LAT) * METERS_PER_DEG_LAT

/-- Local-meter easting used by `compute_stats` (source lines 416–417). -/
def localX (lon : ℚ) : ℚ := (lon - PHARR_LON) * METERS_PER_DEG_LON

/-! ## Coordinate parsing (`parse_coordinates`, source lines 135–148) -/

/-- Python `float(s)` on the literal forms the program meets: optional
sign, decimal digits with at most one point, at least one digit.
`none` models a raised `ValueError`.  (Exponent/inf/nan forms, which the
program never receives from KML coordinate text, are also rejected.) -/
def pyFloatQ (cs : List Char) : Option ℚ :=
  let sign : ℚ := match cs with
    | '-' :: _ => -1
    | _ => 1
  let body : List Char := match cs with
    | '-' :: rest => rest
    | '+' :: rest => rest
    | _ => cs
  match splitBy (fun c => c = '.') body with
  | [ip] =>
      if !ip.isEmpty && ip.all Char.isDigit then some (sign * (digitsVal ip : ℚ))
      else none
  | [ip, fp] =>
      if !(ip.isEmpty && fp.isEmpty) && ip.all Char.isDigit && fp.all Char.isDigit then
        some (sign * ((digitsVal ip : ℚ) + (digitsVal fp : ℚ) / (10 : ℚ) ^ fp.length))
      else none
  | _ => none

/-- One loop iteration of `parse_coordinates`: split the token on commas;
with fewer than 2 fields skip it (`.ok none`); otherwise `float` the
first two fields (lon then lat) and yield the swapped pair, a failed
conversion raising `ValueError`. -/
def parseTok (tok : List Char) : Except String (Option (ℚ × ℚ)) :=
  let parts := splitBy (fun c => c = ',') tok
  if 2 ≤ parts.length then
    match pyFloatQ (parts.getD 0 []), pyFloatQ (parts.getD 1 []) with
    | some lon, some lat => .ok (some (lat, lon))
    | _, _ => .error "could not convert string to float"
  else .ok none

/-- The loop of `parse_coordinates` over all whitespace tokens. -/
def parseToks : List (List Char) → Except String (List (ℚ × ℚ))
  | [] => .ok []
  | t :: ts => do
    let h ← parseTok t
    let tl ← parseToks ts
    match h with
    | some p => .ok (p :: tl)
    | none => .ok tl

/-- `parse_coordinates`: KML text `lon,lat,alt lon,lat,alt …` to a list
of `(lat, lon)` pairs. -/
def parse_coordinates (s : String) : Except String (List (ℚ × ℚ)) :=
  parseToks (wsTokens s.data)

/-! ## Geometry model and extractors (source lines 151–184) -/

/-- One extracted geometry: the dict `{'coordinates': …, 'geometry': …}`. -/
structure Geom where
  coordinates : List (ℚ × ℚ)
  geometry : String
deriving DecidableEq, Repr, Inhabited

/-- A KML `<Polygon>` node as the program reads it: the text of its
`outerBoundaryIs/LinearRing/coordinates` descendant, `none` when the
descendant is missing (`outer is None`). -/
structure KPolygon where
  outer : Option String
deriving Repr, Inhabited

/-- A KML `<LineString>` node: its `coordinates` child text. -/
structure KLineString where
  text : Option String
deriving Repr, Inhabited

/-- A KML `<Point>` node: its `coordinates` child text. -/
structure KPoint where
  text : Option String
deriving Repr, Inhabited

/-- A KML `<Placemark>`: name and description (empty when the child is
absent, as `get_text` returns), and the geometry nodes beneath it. -/
structure Placemark where
  name : String := ""
  description : String := ""
  polygons : List KPolygon := []
  linestrings : List KLineString := []
  points : List KPoint := []
deriving Repr, Inhabited

/-- A KML `<Folder>` with its id attribute and placemark children. -/
structure Folder where
  id : String := ""
  placemarks : List Placemark := []
deriving Repr, Inhabited

/-- The parsed KML document: its folders (placemarks live in folders). -/
structure KmlDoc where
  folders : List Folder := []
deriving Repr, Inhabited

/-- Loop of `parse_polygon`: keep each ring whose coordinate text is
present and non-empty and parses to at least 3 points. -/
def polyGeoms : List KPolygon → Except String (List Geom)
  | [] => .ok []
  | p :: ps =>
    match p.outer with
    | some t =>
      if !t.data.isEmpty then do
        let coords ← parse_coordinates t
        let rest ← polyGeoms ps
        if 3 ≤ coords.length then .ok (⟨coords, "Polygon"⟩ :: rest) else .ok rest
      else polyGeoms ps
    | none => polyGeoms ps

/-- `parse_polygon` (source lines 151–160). -/
def parse_polygon (pm : Placemark) : Except String (List Geom) :=
  polyGeoms pm.polygons

/-- Loop of `parse_linestring`: keep paths of at least 2 points. -/
def lineGeoms : List KLineString → Except String (List Geom)
  | [] => .ok []
  | p :: ps =>
    match p.text with
    | some t =>
      if !t.data.isEmpty then do
        let coords ← parse_coordinates t
        let rest ← lineGeoms ps
        if 2 ≤ coords.length then .ok (⟨coords, "LineString"⟩ :: rest) else .ok rest
      else lineGeoms ps
    | none => lineGeoms ps

/-- `parse_linestring` (source lines 163–172). -/
def parse_linestring (pm : Placemark) : Except String (List Geom) :=
  lineGeoms pm.linestrings

/-- Loop of `parse_point`: keep only the first parsed coordinate. -/
def pointGeoms : List KPoint → Except String (List Geom)
  | [] => .ok []
  | p :: ps =>
    match p.text with
    | some t =>
      if !t.data.isEmpty then do
        let coords ← parse_coordinates t
        let rest ← pointGeoms ps
        match coords with
        | c :: _ => .ok (⟨[c], "Point"⟩ :: rest)
        | [] => .ok rest
      else pointGeoms ps
    | none => pointGeoms ps

/-- `parse_point` (source lines 175–184). -/
def parse_point (pm : Placemark) : Except String (List Geom) :=
  pointGeoms pm.points

/-! ## Layer configuration (source lines 41–107) -/

/-- One `LAYER_CONFIG` entry. -/
structure LayerCfg where
  layer : String
  type : String
  geometry : String
  nameFilter : Option (String → Bool)
  enabled : Bool

/-- The `FeatureLayer50` name filter:
`any(f'FASE {i}' in name.upper() for i in [1, 2])`. -/
def faseFilter (name : String) : Bool :=
  hasSub "FASE 1".data (pyUpper name).data || hasSub "FASE 2".data (pyUpper name).data

/-- `LAYER_CONFIG` in source (dict insertion) order. -/
def LAYER_CONFIG : List (String × LayerCfg) :=
  [ ("FeatureLayer50", ⟨"phases", "inovus_phase", "Polygon", some faseFilter, true⟩)
  , ("FeatureLayer27", ⟨"industrialParks", "industrial_park", "Polygon", none, true⟩)
  , ("FeatureLayer58", ⟨"urbanFootprint", "urban", "Polygon", none, true⟩)
  , ("FeatureLayer17", ⟨"electricity", "substation", "Point", none, false⟩)
  , ("FeatureLayer18", ⟨"electricity", "distribution_line", "LineString", none, false⟩)
  , ("FeatureLayer19", ⟨"electricity", "transmission_line", "LineString", none, false⟩) ]

/-- One `LAYER_STYLES` entry. -/
structure LayerStyle where
  fill : String
  stroke : String
  strokeWidth : ℚ
deriving DecidableEq, Repr, Inhabited

/-- `LAYER_STYLES` (source lines 86–107). -/
def LAYER_STYLES : List (String × LayerStyle) :=
  [ ("phases", ⟨"rgba(127, 223, 255, 0.3)", "rgba(127, 223, 255, 0.7)", 2⟩)
  , ("industrialParks", ⟨"rgba(215, 187, 158, 0.25)", "rgba(255, 178, 115, 0.7)", 1⟩)
  , ("urbanFootprint", ⟨"rgba(100, 100, 100, 0.2)", "rgba(150, 150, 150, 0.4)", 0.5⟩)
  , ("electricity", ⟨"rgba(255, 223, 127, 0.9)", "rgba(0, 255, 85, 0.6)", 2⟩) ]

/-! ## Layer extraction (source lines 224–313) -/

/-- A raw extracted feature (the dict appended by `extract_layer` /
`parse_kml_placemarks`; the legacy path stores no layer/type keys, hence
the `Option`s). -/
structure RawLot where
  name : String
  description : String
  polygons : List Geom
  layer : Option String
  type : Option String
deriving DecidableEq, Repr, Inhabited

/-- The geometry-kind dispatch of `extract_layer` (the `if/elif` chain on
`config['geometry']`). -/
def geomsFor (cfg : LayerCfg) (pm : Placemark) : Except String (List Geom) :=
  if cfg.geometry = "Polygon" then parse_polygon pm
  else if cfg.geometry = "LineString" then parse_linestring pm
  else if cfg.geometry = "Point" then parse_point pm
  else .ok []

/-- Placemark loop of `extract_layer`: apply the name filter, dispatch on
the configured geometry kind, keep the feature only when some geometry
survived. -/
def featuresFrom (cfg : LayerCfg) : List Placemark → Except String (List RawLot)
  | [] => .ok []
  | pm :: rest =>
    if (match cfg.nameFilter with
        | some f => !f pm.name
        | none => false) then
      featuresFrom cfg rest
    else do
      let geoms ← geomsFor cfg pm
      let tl ← featuresFrom cfg rest
      if geoms.isEmpty then .ok tl
      else .ok ({ name := pm.name, description := pm.description, polygons := geoms,
                  layer := some cfg.layer, type := some cfg.type } :: tl)

/-- `extract_layer` (source lines 224–269): locate the folder by id (a
missing folder yields no features, with a warning only). -/
def extract_layer (doc : KmlDoc) (folder_id : String) (cfg : LayerCfg) :
    Except String (List RawLot) :=
  match doc.folders.find? (fun f => f.id == folder_id) with
  | none => .ok []
  | some f => featuresFrom cfg f.placemarks

/-- Configuration loop of `parse_kml_by_layers`: skip entries excluded by
a non-empty layer filter (Python truthiness: an empty filter list
disables filtering). -/
def layersFrom (doc : KmlDoc) (layer_filter : Option (List String)) :
    List (String × LayerCfg) → Except String (List RawLot)
  | [] => .ok []
  | (fid, cfg) :: rest =>
    if (match layer_filter with
        | some lf => !lf.isEmpty && !lf.contains cfg.layer
        | none => false) then
      layersFrom doc layer_filter rest
    else do
      let fs ← extract_layer doc fid cfg
      let tl ← layersFrom doc layer_filter rest
      .ok (fs ++ tl)

/-- `parse_kml_by_layers` (source lines 272–290). -/
def parse_kml_by_layers (doc : KmlDoc) (layer_filter : Option (List String)) :
    Except String (List RawLot) :=
  layersFrom doc layer_filter LAYER_CONFIG

/-- Placemark loop of `parse_kml_placemarks` (legacy mode). -/
def placemarksLegacy : List Placemark → Except String (List RawLot)
  | [] => .ok []
  | pm :: rest => do
    let polys ← parse_polygon pm
    let tl ← placemarksLegacy rest
    if polys.isEmpty then .ok tl
    else .ok ({ name := pm.name, description := pm.description, polygons := polys,
                layer := none, type := none } :: tl)

/-- `parse_kml_placemarks` (source lines 293–313): every placemark in the
document, in document order. -/
def parse_kml_placemarks (doc : KmlDoc) : Except String (List RawLot) :=
  placemarksLegacy (doc.folders.foldr (fun f acc => f.placemarks ++ acc) [])

/-! ## Output assembly (`build_lots_json`, source lines 320–376) -/

/-- One record of the `lots` array. -/
structure LotRecord where
  id : String
  name : String
  comment : String
  layer : String
  type : Option String
  region_id : Option String
  polygons : List Geom
  region_params : Option String
  conversion_rule_ids : Option String
  priority : ℕ
deriving DecidableEq, Repr, Inhabited

/-- The id lead-in of `build_lots_json`: `layer[:4] if layer else 'lot'`. -/
def idPre (layer : String) : List Char :=
  if layer.data.isEmpty then "lot".data else layer.data.take 4

/-- The id string `f"{prefix}_{c:03d}"` built by `build_lots_json`. -/
def mkId (layer : String) (c : ℕ) : String :=
  ⟨idPre layer ++ '_' :: pad3 c⟩

/-- The layer names a raw feature can carry: the four configured layer
names (`extract_layer` stores `config['layer']`) and the `'lots'`
default the assembler uses when the legacy path stored none. -/
def layerNames : List String :=
  ["phases", "industrialParks", "urbanFootprint", "electricity", "lots"]

/-- `raw.get('layer', 'lots')`. -/
def layerNameOf (r : RawLot) : String := r.layer.getD "lots"

/-- The lot-building loop of `build_lots_json`, with the `layer_counts`
dict as explicit state. -/
def buildLots : List RawLot → (String → ℕ) → List LotRecord
  | [], _ => []
  | r :: rest, counts =>
    let layer := layerNameOf r
    let c := counts layer + 1
    { id := mkId layer c, name := r.name, comment := r.description, layer := layer,
      type := r.type, region_id := none, polygons := r.polygons, region_params := none,
      conversion_rule_ids := none, priority := 0 }
      :: buildLots rest (fun l => if l = layer then c else counts l)

/-- Metadata emitted per distinct layer. -/
structure LayerMeta where
  enabled : Bool
  style : Option LayerStyle
deriving DecidableEq, Repr, Inhabited

/-- `enabled` lookup: first `LAYER_CONFIG` entry whose layer name matches,
defaulting to `True` for unknown layers. -/
def layerEnabled (name : String) : Bool :=
  match LAYER_CONFIG.find? (fun p => p.2.layer == name) with
  | some p => p.2.enabled
  | none => true

/-- `LAYER_STYLES.get(name, {})`; `none` is the empty default style. -/
def styleOf (name : String) : Option LayerStyle :=
  (LAYER_STYLES.find? (fun p => p.1 == name)).map (·.2)

/-- Distinct elements in first-occurrence order: one canonical
enumeration of the `set()` of layer names the program iterates to build
`layers` metadata.  CPython enumerates that set in a process-dependent
(hash-seed-randomized) order; `build_lots_json_ord` below therefore
takes the enumeration order as an explicit input, with any permutation
of this list a possible order. -/
def dedupFirst : List String → List String
  | [] => []
  | x :: xs => x :: (dedupFirst xs).filter (fun y => y ≠ x)

/-- The `transform` block of the output. -/
structure TransformMeta where
  origin_lat : ℚ
  origin_lon : ℚ
  meters_per_deg_lat : ℚ
  meters_per_deg_lon : ℚ
  notes : String
deriving DecidableEq, Repr, Inhabited

/-- The whole output document. -/
structure OutputDoc where
  version : String
  generated : String
  source_kmz : String
  transform : TransformMeta
  layers : List (String × LayerMeta)
  lots : List LotRecord
deriving DecidableEq, Repr, Inhabited

/-- The `layers` metadata for one enumeration of the distinct layer
names (the body of the `for layer_name in set(...)` loop). -/
def layersMetaFor (order : List String) : List (String × LayerMeta) :=
  order.map (fun n => (n, { enabled := layerEnabled n, style := styleOf n }))

/-- `build_lots_json` (source lines 320–376) with the `set()` iteration
order of the `layers` metadata as an explicit input: CPython enumerates
the set of layer names in a hash-seed-dependent order, so the order —
like the date — is an input of a run.  A legitimate order is any
permutation of the distinct layer names.  `today` stands for
`datetime.now().strftime("%Y-%m-%d")`; `layer_filter` is accepted and,
as in the source, unused. -/
def build_lots_json_ord (raw_lots : List RawLot) (source_kmz : String)
    (layer_filter : Option (List String)) (today : String) (order : List String) :
    OutputDoc :=
  let lots := buildLots raw_lots (fun _ => 0)
  { version := "2.0"
  , generated := today
  , source_kmz := pyBasename source_kmz
  , transform :=
      { origin_lat := PHARR_LAT
      , origin_lon := PHARR_LON
      , meters_per_deg_lat := METERS_PER_DEG_LAT
      , meters_per_deg_lon := pyRound2 METERS_PER_DEG_LON
      , notes := "PHARR POE is coordinate origin (0,0). Same as bundle transform." }
  , layers := layersMetaFor order
  , lots := lots }

/-- `build_lots_json` at the canonical (first-occurrence) set order. -/
def build_lots_json (raw_lots : List RawLot) (source_kmz : String)
    (layer_filter : Option (List String)) (today : String) : OutputDoc :=
  build_lots_json_ord raw_lots source_kmz layer_filter today
    (dedupFirst ((buildLots raw_lots (fun _ => 0)).map (·.layer)))

/-! ## Statistics (`compute_stats`, source lines 383–430) -/

/-- The statistics record. -/
structure Stats where
  num_lots : ℕ
  num_polygons : ℕ
  by_layer : List (String × ℕ)
  by_geometry : List (String × ℕ)
  lat_range : ℚ × ℚ
  lon_range : ℚ × ℚ
  y_range_m : ℚ × ℚ
  x_range_m : ℚ × ℚ
deriving DecidableEq, Repr, Inhabited

/-- `d[k] = d.get(k, 0) + 1` on an insertion-ordered dict. -/
def bumpCount : List (String × ℕ) → String → List (String × ℕ)
  | [], k => [(k, 1)]
  | (k', v) :: rest, k =>
    if k' = k then (k', v + 1) :: rest else (k', v) :: bumpCount rest k

/-- All coordinates of the document, in traversal order (the `all_lats` /
`all_lons` loop; every stored coordinate is a well-formed pair, so the
`isinstance`/length guard of the source always passes). -/
def allCoords (lots : List LotRecord) : List (ℚ × ℚ) :=
  lots.foldr (fun lot acc => lot.polygons.foldr (fun g a => g.coordinates ++ a) acc) []

/-- `compute_stats` (source lines 383–430). -/
def compute_stats (doc : OutputDoc) : Stats :=
  let lots := doc.lots
  let total_polygons := (lots.map (fun l => l.polygons.length)).sum
  let by_layer := lots.foldl (fun m lot => bumpCount m lot.layer) []
  let by_geometry := lots.foldl
      (fun m lot => lot.polygons.foldl (fun m' g => bumpCount m' g.geometry) m)
      [("Polygon", 0), ("LineString", 0), ("Point", 0)]
  match allCoords lots with
  | [] =>
    { num_lots := lots.length, num_polygons := total_polygons, by_layer := by_layer
    , by_geometry := by_geometry, lat_range := (0, 0), lon_range := (0, 0)
    , y_range_m := (0, 0), x_range_m := (0, 0) }
  | c :: cs =>
    let lat_lo := cs.foldl (fun a p => min a p.1) c.1
    let lat_hi := cs.foldl (fun a p => max a p.1) c.1
    let lon_lo := cs.foldl (fun a p => min a p.2) c.2
    let lon_hi := cs.foldl (fun a p => max a p.2) c.2
    { num_lots := lots.length, num_polygons := total_polygons, by_layer := by_layer
    , by_geometry := by_geometry, lat_range := (lat_lo, lat_hi)
    , lon_range := (lon_lo, lon_hi)
    , y_range_m := (localY lat_lo, localY lat_hi)
    , x_range_m := (localX lon_lo, localX lon_hi) }

/-! ## Archive reading (`extract_kml_from_kmz`, source lines 113–122) -/

/-- The error raised when the archive holds no KML entry
(`ValueError("No KML file found in KMZ")`). -/
inductive KmzError where
  | noKml
deriving DecidableEq, Repr

/-- Python `f.endswith('.kml')`. -/
def isKmlName (n : String) : Bool := ".kml".data.isSuffixOf n.data

/-- `extract_kml_from_kmz`: an archive is its entry list (name, decoded
text) in zip order.  `doc.kml` is preferred, else the first `.kml`
entry; the final read always finds its entry, the `getD` default being
unreachable. -/
def extract_kml_from_kmz (entries : List (String × String)) : Except KmzError String :=
  let kml_files := (entries.map (·.1)).filter isKmlName
  if kml_files.isEmpty then .error .noKml
  else
    let kml_name := if kml_files.contains "doc.kml" then "doc.kml" else kml_files.headD ""
    .ok (((entries.find? (fun e => e.1 == kml_name)).map (·.2)).getD "")

/-! ## The pipeline (`main`, source lines 437–498) -/

/-- Extraction + assembly on a parsed document: legacy or multi-layer
extraction followed by `build_lots_json`, exactly as `main` sequences
them.  `today` is the generation date. -/
def runPipeline (doc : KmlDoc) (legacy : Bool) (layer_filter : Option (List String))
    (input_path : String) (today : String) : Except String OutputDoc :=
  (if legacy then parse_kml_placemarks doc else parse_kml_by_layers doc layer_filter).map
    (fun raws => build_lots_json raws input_path layer_filter today)

/-- The pipeline with the `set()` iteration order of the layers metadata
as an explicit run input (see `build_lots_json_ord`). -/
def runPipelineOrd (doc : KmlDoc) (legacy : Bool) (layer_filter : Option (List String))
    (input_path : String) (today : String) (order : List String) :
    Except String OutputDoc :=
  (if legacy then parse_kml_placemarks doc else parse_kml_by_layers doc layer_filter).map
    (fun raws => build_lots_json_ord raws input_path layer_filter today order)
/-! ## Concrete fixtures and result predicates used by the theorems -/

/-- Every lot of a successful run has a non-empty geometry list; a failed
run is vacuously fine. -/
def lotsAllNonempty (res : Except String OutputDoc) : Bool :=
  match res with
  | .ok o => o.lots.all (fun l => !l.polygons.isEmpty)
  | .error _ => true

/-- Two pipeline results agree on everything except the `generated`
field and the enumeration order of the `layers` mapping: same error, or
outputs with equal version, source name, transform and lots, and
`layers` association lists that are permutations of one another. -/
def agreeUpToGeneratedAndLayerOrder (r₁ r₂ : Except String OutputDoc) : Prop :=
  match r₁, r₂ with
  | .ok o₁, .ok o₂ => o₁.version = o₂.version ∧ o₁.source_kmz = o₂.source_kmz
      ∧ o₁.transform = o₂.transform ∧ o₁.layers.Perm o₂.layers ∧ o₁.lots = o₂.lots
  | .error e₁, .error e₂ => e₁ = e₂
  | _, _ => False

/-- One enumeration order of the two-layer set produced by `docCex`. -/
def ordA : List String := ["phases", "industrialParks"]

/-- The other enumeration order of that set. -/
def ordB : List String := ["industrialParks", "phases"]

/-- A document whose multi-layer extraction yields one `phases` feature
and one `industrialParks` feature. -/
def docCex : KmlDoc :=
  { folders :=
      [ { id := "FeatureLayer50"
        , placemarks := [{ name := "FASE 1 A", polygons := [⟨some "0,0 0,1 1,0"⟩] }] }
      , { id := "FeatureLayer27"
        , placemarks := [{ name := "P", polygons := [⟨some "0,0 0,1 1,0"⟩] }] } ] }

/-- A concrete triangle geometry. -/
def geomW : Geom := ⟨[(0, 0), (0, 1), (1, 0)], "Polygon"⟩

/-- Concrete extracted features covering two layers with a repeat. -/
def rawsW : List RawLot :=
  [ ⟨"A", "", [geomW], some "phases", some "inovus_phase"⟩
  , ⟨"B", "", [geomW], some "industrialParks", none⟩
  , ⟨"C", "", [geomW], some "phases", none⟩ ]

/-- The comma fields of a coordinate token. -/
def tokFields (tok : List Char) : List (List Char) := splitBy (fun c => c = ',') tok

/-- The latitude a well-formed token denotes (its second field). -/
def tokLat (tok : List Char) : ℚ := (pyFloatQ ((tokFields tok).getD 1 [])).getD 0

/-- The longitude a well-formed token denotes (its first field). -/
def tokLon (tok : List Char) : ℚ := (pyFloatQ ((tokFields tok).getD 0 [])).getD 0

/-- A token with at least two comma fields whose first two fields are
numeric. -/
def goodTok (tok : List Char) : Prop :=
  2 ≤ (tokFields tok).length
  ∧ (pyFloatQ ((tokFields tok).getD 0 [])).isSome = true
  ∧ (pyFloatQ ((tokFields tok).getD 1 [])).isSome = true

instance (tok : List Char) : Decidable (goodTok tok) := by
  unfold goodTok; infer_instance

/-- The outer-ring coordinate texts `parse_polygon` actually parses:
present (`is not None`) and non-empty. -/
def ringTextsL (ps : List KPolygon) : List String :=
  ps.filterMap (fun p => match p.outer with
    | some t => if !t.data.isEmpty then some t else none
    | none => none)

/-- The rings of one placemark, as `parse_polygon` visits them. -/
def ringTexts (pm : Placemark) : List String := ringTextsL pm.polygons

/-- A placemark whose first ring text holds a non-numeric token. -/
def pmBad : Placemark :=
  { name := "bad", polygons := [⟨some "abc,def 0,0 0,1 1,0"⟩] }

/-- A placemark with one 2-point ring and one 3-point ring. -/
def pmW : Placemark :=
  { name := "W", polygons := [⟨some "0,0 1,1"⟩, ⟨some "0,0 1,1 2,2"⟩] }

/-- A document holds no coordinates at all. -/
def noCoordinates (doc : OutputDoc) : Prop := allCoords doc.lots = []

/-- Well-formedness every assembled output enjoys: each lot has some
geometry and each geometry some coordinate. -/
def lotsWellFormed (doc : OutputDoc) : Prop :=
  ∀ lot ∈ doc.lots, lot.polygons ≠ [] ∧ ∀ g ∈ lot.polygons, g.coordinates ≠ []

instance (doc : OutputDoc) : Decidable (noCoordinates doc) := by
  unfold noCoordinates; infer_instance

instance (doc : OutputDoc) : Decidable (lotsWellFormed doc) := by
  unfold lotsWellFormed; infer_instance

/-- An output document with `lots: []`. -/
def emptyDocW : OutputDoc :=
  { version := "2.0", generated := "d", source_kmz := "x.kmz"
  , transform := ⟨0, 0, 0, 0, ""⟩, layers := [], lots := [] }

/-- Archive with no `.kml` entry. -/
def entriesNoKml : List (String × String) := [("a.txt", "t")]

/-- Archive holding `doc.kml` and another `.kml` entry. -/
def entriesDoc : List (String × String) := [("a.txt", "t"), ("b.kml", "B"), ("doc.kml", "D")]

/-- Archive with `.kml` entries but no `doc.kml`. -/
def entriesFirst : List (String × String) := [("a.txt", "t"), ("b.kml", "B"), ("c.kml", "C")]

/-- A longitude one degree east of the origin. -/
def lonC10 : ℚ := PHARR_LON + 1

/-- A document with a single point one degree east of the origin. -/
def docC10 : OutputDoc :=
  { version := "2.0", generated := "d", source_kmz := "x.kmz"
  , transform := ⟨0, 0, 0, 0, ""⟩
  , layers := []
  , lots := [{ id := "lots_001", name := "p", comment := "", layer := "lots", type := none
             , region_id := none, polygons := [⟨[(PHARR_LAT, lonC10)], "Point"⟩]
             , region_params := none, conversion_rule_ids := none, priority := 0 }] }
/-! ## Decimal-rendering and id lemmas -/

theorem exc_bind_ok {α β ε : Type} (a : α) (f : α → Except ε β) :
    (Except.ok a >>= f) = f a := rfl

theorem exc_bind_err {α β ε : Type} (e : ε) (f : α → Except ε β) :
    ((Except.error e : Except ε α) >>= f) = .error e := rfl

theorem toNat_digitChar (d : ℕ) (h : d < 10) : (Char.ofNat (48 + d)).toNat = 48 + d := by
  interval_cases d <;> decide

theorem decAux_append (f : ℕ) : ∀ (n : ℕ) (acc : List Char),
    decAux f n acc = decAux f n [] ++ acc := by
  induction f with
  | zero => intro n acc; simp [decAux]
  | succ f ih =>
    intro n acc
    by_cases h : n < 10
    · simp [decAux, h]
    · simp only [decAux, if_neg h]
      rw [ih (n / 10), ih (n / 10) [Char.ofNat (48 + n % 10)]]
      simp

theorem digitsVal_decAux (f : ℕ) : ∀ n a, n < 10 ^ f →
    (decAux f n []).foldl (fun acc c => 10 * acc + (c.toNat - 48)) a
      = a * 10 ^ (decAux f n []).length + n := by
  induction f with
  | zero =>
    intro n a h
    interval_cases n
    simp [decAux]
  | succ f ih =>
    intro n a h
    by_cases h10 : n < 10
    · simp [decAux, h10, toNat_digitChar n h10]; ring
    · have hdiv : n / 10 < 10 ^ f := by
        apply Nat.div_lt_of_lt_mul
        rw [pow_succ] at h
        omega
      simp only [decAux, if_neg h10]
      rw [decAux_append]
      rw [List.foldl_append, List.length_append]
      rw [ih (n / 10) a hdiv]
      simp only [List.foldl, List.length]
      rw [toNat_digitChar (n % 10) (Nat.mod_lt _ (by norm_num))]
      have := Nat.div_add_mod n 10
      ring_nf
      omega

theorem digitsVal_decChars (n : ℕ) : digitsVal (decChars n) = n := by
  have h1 : n < 10 ^ n := Nat.lt_pow_self (by norm_num) n
  have h : n < 10 ^ (n + 1) := lt_of_lt_of_le h1 (Nat.pow_le_pow_right (by norm_num) (Nat.le_succ n))
  have := digitsVal_decAux (n + 1) n 0 h
  simpa [digitsVal, decChars] using this

theorem digitsVal_zeros (k : ℕ) (cs : List Char) :
    digitsVal (List.replicate k '0' ++ cs) = digitsVal cs := by
  induction k with
  | zero => simp
  | succ k ih => simpa [digitsVal, List.replicate_succ] using ih

theorem pad3_inj {m n : ℕ} (h : pad3 m = pad3 n) : m = n := by
  have := congrArg digitsVal h
  rwa [pad3, pad3, digitsVal_zeros, digitsVal_zeros, digitsVal_decChars,
    digitsVal_decChars] at this

theorem idPre_len : ∀ l ∈ layerNames, (idPre l).length = 4 := by decide

theorem idPre_inj : ∀ l₁ ∈ layerNames, ∀ l₂ ∈ layerNames, idPre l₁ = idPre l₂ → l₁ = l₂ := by
  decide

theorem mkId_inj {l₁ l₂ : String} {c₁ c₂ : ℕ} (h₁ : l₁ ∈ layerNames) (h₂ : l₂ ∈ layerNames)
    (h : mkId l₁ c₁ = mkId l₂ c₂) : l₁ = l₂ ∧ c₁ = c₂ := by
  have hd : idPre l₁ ++ '_' :: pad3 c₁ = idPre l₂ ++ '_' :: pad3 c₂ := congrArg String.data h
  have hlen : (idPre l₁).length = (idPre l₂).length := by
    rw [idPre_len l₁ h₁, idPre_len l₂ h₂]
  obtain ⟨hp, hs⟩ := List.append_inj hd hlen
  exact ⟨idPre_inj l₁ h₁ l₂ h₂ hp, pad3_inj (List.cons.inj hs).2⟩

theorem buildLots_length (rs : List RawLot) : ∀ cf, (buildLots rs cf).length = rs.length := by
  induction rs with
  | nil => intro cf; rfl
  | cons r rest ih => intro cf; simp [buildLots, ih]

theorem buildLots_getD (rs : List RawLot) : ∀ cf i, i < rs.length →
    ((buildLots rs cf).getD i default).id
      = mkId (layerNameOf (rs.getD i default))
          (cf (layerNameOf (rs.getD i default))
            + ((rs.take (i + 1)).map layerNameOf).count (layerNameOf (rs.getD i default))) := by
  induction rs with
  | nil => intro cf i h; simp at h
  | cons r rest ih =>
    intro cf i h
    cases i with
    | zero => simp [buildLots, List.count_cons]
    | succ i =>
      have hlen : i < rest.length := by simpa using h
      simp only [buildLots, List.getD_cons_succ, List.take_succ_cons, List.map_cons,
        List.count_cons]
      rw [ih _ i hlen]
      by_cases he : layerNameOf (rest.getD i default) = layerNameOf r
      · rw [he]
        simp only [List.map_take]
        congr 1
        simp only [beq_self_eq_true, if_true]
        omega
      · have hne := beq_eq_false_iff_ne.2 (Ne.symm he)
        simp only [List.map_take, if_neg he, hne, if_false, Bool.false_eq_true]
        congr 1

theorem buildLots_mem (rs : List RawLot) : ∀ cf lot, lot ∈ buildLots rs cf →
    ∃ r ∈ rs, ∃ c, lot.id = mkId (layerNameOf r) c ∧ cf (layerNameOf r) < c
      ∧ lot.polygons = r.polygons := by
  induction rs with
  | nil => intro cf lot h; simp [buildLots] at h
  | cons r rest ih =>
    intro cf lot hmem
    simp only [buildLots, List.mem_cons] at hmem
    rcases hmem with h | h
    · refine ⟨r, List.mem_cons_self r rest, cf (layerNameOf r) + 1, ?_, ?_, ?_⟩
      · rw [h]
      · omega
      · rw [h]
    · obtain ⟨r', hr', c, hid, hlt, hpoly⟩ := ih _ lot h
      refine ⟨r', List.mem_cons_of_mem r hr', c, hid, ?_, hpoly⟩
      by_cases he : layerNameOf r' = layerNameOf r
      · rw [he] at hlt ⊢
        simp at hlt
        omega
      · rw [if_neg he] at hlt
        exact hlt

theorem buildLots_nodup (rs : List RawLot) : ∀ cf, (∀ r ∈ rs, layerNameOf r ∈ layerNames) →
    ((buildLots rs cf).map (fun l => l.id)).Nodup := by
  induction rs with
  | nil => intro cf _; simp [buildLots]
  | cons r rest ih =>
    intro cf hall
    simp only [buildLots, List.map_cons, List.nodup_cons]
    constructor
    · intro hmem
      obtain ⟨lot, hlot, hid⟩ := List.mem_map.mp hmem
      obtain ⟨r', hr', c, hid', hlt, _⟩ := buildLots_mem rest _ lot hlot
      have heq : mkId (layerNameOf r') c = mkId (layerNameOf r) (cf (layerNameOf r) + 1) :=
        hid'.symm.trans hid
      obtain ⟨hl, hc⟩ := mkId_inj (hall r' (List.mem_cons_of_mem r hr'))
        (hall r (List.mem_cons_self r rest)) heq
      rw [hl] at hlt
      simp at hlt
      omega
    · exact ih _ (fun x hx => hall x (List.mem_cons_of_mem r hx))
/-! ## Extraction lemmas: layer names and non-empty geometry -/

theorem featuresFrom_ok (cfg : LayerCfg) : ∀ pms rs, featuresFrom cfg pms = .ok rs →
    ∀ r ∈ rs, r.layer = some cfg.layer ∧ r.polygons ≠ [] := by
  intro pms
  induction pms with
  | nil =>
    intro rs h r hr
    simp only [featuresFrom, Except.ok.injEq] at h
    subst h
    simp at hr
  | cons pm rest ih =>
    intro rs h r hr
    simp only [featuresFrom] at h
    split at h
    · exact ih rs h r hr
    · cases hg : geomsFor cfg pm with
      | error e => rw [hg, exc_bind_err] at h; exact absurd h (by simp)
      | ok geoms =>
        rw [hg] at h
        rw [exc_bind_ok] at h
        cases ht : featuresFrom cfg rest with
        | error e => rw [ht, exc_bind_err] at h; exact absurd h (by simp)
        | ok tl =>
          rw [ht] at h
          rw [exc_bind_ok] at h
          by_cases hge : geoms.isEmpty
          · rw [if_pos hge, Except.ok.injEq] at h
            subst h
            exact ih tl ht r hr
          · rw [if_neg hge, Except.ok.injEq] at h
            subst h
            rcases List.mem_cons.mp hr with hr | hr
            · subst hr
              refine ⟨rfl, ?_⟩
              simpa [List.isEmpty_iff] using hge
            · exact ih tl ht r hr

theorem extract_layer_ok (doc : KmlDoc) (fid : String) (cfg : LayerCfg) :
    ∀ rs, extract_layer doc fid cfg = .ok rs →
    ∀ r ∈ rs, r.layer = some cfg.layer ∧ r.polygons ≠ [] := by
  intro rs h r hr
  unfold extract_layer at h
  cases hf : doc.folders.find? (fun f => f.id == fid) with
  | none =>
    rw [hf, Except.ok.injEq] at h
    subst h
    simp at hr
  | some f =>
    rw [hf] at h
    exact featuresFrom_ok cfg f.placemarks rs h r hr

theorem layersFrom_ok (doc : KmlDoc) (lfil : Option (List String)) :
    ∀ cfgs rs, layersFrom doc lfil cfgs = .ok rs →
    ∀ r ∈ rs, (∃ p ∈ cfgs, r.layer = some p.2.layer) ∧ r.polygons ≠ [] := by
  intro cfgs
  induction cfgs with
  | nil =>
    intro rs h r hr
    simp only [layersFrom, Except.ok.injEq] at h
    subst h
    simp at hr
  | cons p rest ih =>
    intro rs h r hr
    simp only [layersFrom] at h
    split at h
    · obtain ⟨⟨q, hq, hql⟩, hne⟩ := ih rs h r hr
      exact ⟨⟨q, List.mem_cons_of_mem p hq, hql⟩, hne⟩
    · cases hg : extract_layer doc p.1 p.2 with
      | error e => rw [hg, exc_bind_err] at h; exact absurd h (by simp)
      | ok fs =>
        rw [hg] at h
        rw [exc_bind_ok] at h
        cases ht : layersFrom doc lfil rest with
        | error e => rw [ht, exc_bind_err] at h; exact absurd h (by simp)
        | ok tl =>
          rw [ht] at h
          rw [exc_bind_ok] at h
          rw [Except.ok.injEq] at h
          subst h
          rcases List.mem_append.mp hr with hr | hr
          · obtain ⟨hl, hne⟩ := extract_layer_ok doc p.1 p.2 fs hg r hr
            exact ⟨⟨p, List.mem_cons_self p rest, hl⟩, hne⟩
          · obtain ⟨⟨q, hq, hql⟩, hne⟩ := ih tl ht r hr
            exact ⟨⟨q, List.mem_cons_of_mem p hq, hql⟩, hne⟩

theorem placemarksLegacy_ok : ∀ pms rs, placemarksLegacy pms = .ok rs →
    ∀ r ∈ rs, r.layer = none ∧ r.polygons ≠ [] := by
  intro pms
  induction pms with
  | nil =>
    intro rs h r hr
    simp only [placemarksLegacy, Except.ok.injEq] at h
    subst h
    simp at hr
  | cons pm rest ih =>
    intro rs h r hr
    rw [placemarksLegacy] at h
    cases hg : parse_polygon pm with
    | error e => rw [hg, exc_bind_err] at h; exact absurd h (by simp)
    | ok polys =>
      rw [hg] at h
      rw [exc_bind_ok] at h
      cases ht : placemarksLegacy rest with
      | error e => rw [ht, exc_bind_err] at h; exact absurd h (by simp)
      | ok tl =>
        rw [ht] at h
        rw [exc_bind_ok] at h
        by_cases hge : polys.isEmpty
        · rw [if_pos hge, Except.ok.injEq] at h
          subst h
          exact ih tl ht r hr
        · rw [if_neg hge, Except.ok.injEq] at h
          subst h
          rcases List.mem_cons.mp hr with hr | hr
          · subst hr
            refine ⟨rfl, ?_⟩
            simpa [List.isEmpty_iff] using hge
          · exact ih tl ht r hr

theorem config_layer_mem : ∀ p ∈ LAYER_CONFIG, p.2.layer ∈ layerNames := by
  intro p hp
  fin_cases hp <;> decide

theorem extraction_raws (doc : KmlDoc) (lf : Option (List String)) (legacy : Bool) :
    ∀ rs, (if legacy then parse_kml_placemarks doc else parse_kml_by_layers doc lf) = .ok rs →
    ∀ r ∈ rs, layerNameOf r ∈ layerNames ∧ r.polygons ≠ [] := by
  intro rs h r hr
  cases legacy with
  | true =>
    rw [if_pos rfl] at h
    obtain ⟨hl, hne⟩ := placemarksLegacy_ok _ rs h r hr
    exact ⟨by simp [layerNameOf, hl, layerNames], hne⟩
  | false =>
    rw [if_neg (by simp)] at h
    obtain ⟨⟨p, hp, hl⟩, hne⟩ := layersFrom_ok doc lf LAYER_CONFIG rs h r hr
    refine ⟨?_, hne⟩
    rw [layerNameOf, hl]
    exact config_layer_mem p hp
/-! ## Claim theorems C1, C2, C9 -/

/-- C1: `build_lots_json` gives every record the id
`<prefix>_<counter:03d>` where the counter is per-layer, seeded at 1 and
incremented in discovery order (the counter of record `i` is the number
of earlier-or-equal records of the same layer), and the ids are unique
across the whole output.  The hypothesis — every feature's layer name is
one of the names extraction can produce — is established for both
extraction modes by `extraction_raws`. -/
theorem lot_ids_sequential_and_unique (raws : List RawLot) (kmz : String)
    (lf : Option (List String)) (d : String)
    (h : ∀ r ∈ raws, layerNameOf r ∈ layerNames) :
    (∀ i, i < raws.length →
      ((build_lots_json raws kmz lf d).lots.getD i default).id
        = mkId (layerNameOf (raws.getD i default))
            (((raws.take (i + 1)).map layerNameOf).count (layerNameOf (raws.getD i default))))
    ∧ ((build_lots_json raws kmz lf d).lots.map (fun l => l.id)).Nodup := by
  constructor
  · intro i hi
    have hb : (build_lots_json raws kmz lf d).lots = buildLots raws (fun _ => 0) := rfl
    rw [hb, buildLots_getD raws (fun _ => 0) i hi, Nat.zero_add, List.map_take]
  · exact buildLots_nodup raws _ h

/-- Witness for C1 at a concrete feature list (layers
`phases, industrialParks, phases`). -/
theorem lot_ids_sequential_and_unique_witness :
    (∀ r ∈ rawsW, layerNameOf r ∈ layerNames)
    ∧ ((∀ i, i < rawsW.length →
        ((build_lots_json rawsW "in.kmz" none "2024-01-01").lots.getD i default).id
          = mkId (layerNameOf (rawsW.getD i default))
              (((rawsW.take (i + 1)).map layerNameOf).count
                (layerNameOf (rawsW.getD i default))))
      ∧ ((build_lots_json rawsW "in.kmz" none "2024-01-01").lots.map
          (fun l => l.id)).Nodup) :=
  ⟨by decide, lot_ids_sequential_and_unique rawsW "in.kmz" none "2024-01-01" (by decide)⟩

theorem runPipelineOrd_layer_keys (doc : KmlDoc) (legacy : Bool)
    (lf : Option (List String)) (path d : String) (ord : List String) (o : OutputDoc)
    (h : runPipelineOrd doc legacy lf path d ord = .ok o) :
    o.layers.map (fun p => p.1) = ord := by
  unfold runPipelineOrd at h
  cases hx : (if legacy then parse_kml_placemarks doc else parse_kml_by_layers doc lf) with
  | error e => rw [hx] at h; simp [Except.map] at h
  | ok rs =>
    rw [hx] at h
    simp only [Except.map, Except.ok.injEq] at h
    subst h
    simp [build_lots_json_ord, layersMetaFor, List.map_map, Function.comp_def]

/-- C2 counterexample: the serialized output is not a function of input
bytes and configuration alone.  With the `set()` iteration order made an
explicit run input (it is hash-seed-dependent in CPython), two runs on
the same document, configuration, path and even the same date, using
the two enumeration orders of the same two-layer set, produce different
output documents — their `layers` mappings list the keys in different
orders — refuting byte-identical-except-`generated`. -/
theorem pipeline_output_depends_on_set_order :
    ordA ≠ ordB
    ∧ ordA.Perm ordB
    ∧ (runPipelineOrd docCex false none "x.kmz" "2024-01-01" ordA).isOk = true
    ∧ runPipelineOrd docCex false none "x.kmz" "2024-01-01" ordA
        ≠ runPipelineOrd docCex false none "x.kmz" "2024-01-01" ordB := by
  refine ⟨by decide, List.Perm.swap "industrialParks" "phases" [], by decide, ?_⟩
  intro h
  have hok : (runPipelineOrd docCex false none "x.kmz" "2024-01-01" ordA).isOk = true := by
    decide
  cases hA : runPipelineOrd docCex false none "x.kmz" "2024-01-01" ordA with
  | error e => rw [hA] at hok; exact Bool.noConfusion hok
  | ok oA =>
    have hB : runPipelineOrd docCex false none "x.kmz" "2024-01-01" ordB = .ok oA := by
      rw [← h, hA]
    have k1 := runPipelineOrd_layer_keys docCex false none "x.kmz" "2024-01-01" ordA oA hA
    have k2 := runPipelineOrd_layer_keys docCex false none "x.kmz" "2024-01-01" ordB oA hB
    rw [k1] at k2
    exact absurd k2 (by decide)

/-- C2 (amended): two pipeline runs on the same parsed document, mode,
filter and path — with free generation dates and free `set()` iteration
orders that enumerate the same set (are permutations of one another) —
produce outputs identical except for `generated` and the order of the
`layers` mapping: equal version, source name, transform and lots, and
`layers` mappings that are permutations of each other (same keys with
the same metadata); failing runs fail identically.  (The unamended
byte-identical claim is refuted by the counterexample.) -/
theorem pipeline_deterministic_up_to_generated_and_layer_order (doc : KmlDoc)
    (legacy : Bool) (lf : Option (List String)) (path d₁ d₂ : String)
    (ord₁ ord₂ : List String) (hperm : ord₁.Perm ord₂) :
    agreeUpToGeneratedAndLayerOrder (runPipelineOrd doc legacy lf path d₁ ord₁)
      (runPipelineOrd doc legacy lf path d₂ ord₂) := by
  unfold runPipelineOrd
  cases hx : (if legacy then parse_kml_placemarks doc else parse_kml_by_layers doc lf) with
  | error e => exact rfl
  | ok rs => exact ⟨rfl, rfl, rfl, hperm.map _, rfl⟩

/-- Witness for the amended C2 at a concrete document and the two orders
of its two-layer set, with different dates. -/
theorem pipeline_deterministic_up_to_generated_and_layer_order_witness :
    ordA.Perm ordB
    ∧ agreeUpToGeneratedAndLayerOrder
        (runPipelineOrd docCex false none "x.kmz" "2024-01-01" ordA)
        (runPipelineOrd docCex false none "x.kmz" "2024-01-02" ordB) :=
  ⟨List.Perm.swap "industrialParks" "phases" [],
   pipeline_deterministic_up_to_generated_and_layer_order docCex false none "x.kmz"
     "2024-01-01" "2024-01-02" ordA ordB (List.Perm.swap "industrialParks" "phases" [])⟩

/-- C9: in both extraction modes, every `LotRecord` of a successful run
has a non-empty `polygons` list — placemarks whose geometries were all
discarded produce no record at all. -/
theorem lots_have_nonempty_polygons (doc : KmlDoc) (legacy : Bool)
    (lf : Option (List String)) (path d : String) :
    lotsAllNonempty (runPipeline doc legacy lf path d) = true := by
  unfold runPipeline
  cases hx : (if legacy then parse_kml_placemarks doc else parse_kml_by_layers doc lf) with
  | error e => rfl
  | ok rs =>
    simp only [Except.map, lotsAllNonempty, List.all_eq_true]
    intro lot hlot
    have hb : (build_lots_json rs path lf d).lots = buildLots rs (fun _ => 0) := rfl
    rw [hb] at hlot
    obtain ⟨r, hr, c, _, _, hpoly⟩ := buildLots_mem rs _ lot hlot
    have hne := (extraction_raws doc lf legacy rs hx r hr).2
    simp [hpoly, List.isEmpty_iff, hne]
/-! ## Parsing lemmas and claim theorems C3, C4, C5 -/

theorem exc_bind_pure {α ε : Type} (x : Except ε α) :
    (x >>= fun a => Except.ok a) = x := by cases x <;> rfl

theorem parseToks_skip (tok : List Char) (h : (tokFields tok).length < 2) :
    ∀ ts₁ ts₂, parseToks (ts₁ ++ tok :: ts₂) = parseToks (ts₁ ++ ts₂) := by
  intro ts₁
  induction ts₁ with
  | nil =>
    intro ts₂
    simp only [List.nil_append, parseToks]
    rw [show parseTok tok = .ok none from by rw [parseTok, if_neg (by simpa [tokFields] using h)]]
    rw [exc_bind_ok]
    exact exc_bind_pure _
  | cons t ts₁ ih =>
    intro ts₂
    simp only [List.cons_append, parseToks, List.append_eq]
    simp only [ih]

theorem parseToks_total : ∀ ts, (∀ tok ∈ ts, 2 ≤ (tokFields tok).length →
    (pyFloatQ ((tokFields tok).getD 0 [])).isSome = true
    ∧ (pyFloatQ ((tokFields tok).getD 1 [])).isSome = true) →
    ∃ cs, parseToks ts = .ok cs := by
  intro ts
  induction ts with
  | nil => exact fun _ => ⟨[], rfl⟩
  | cons t ts ih =>
    intro h
    obtain ⟨cs, hcs⟩ := ih (fun tok htok => h tok (List.mem_cons_of_mem t htok))
    by_cases hl : 2 ≤ (tokFields t).length
    · obtain ⟨h0, h1⟩ := h t (List.mem_cons_self t ts) hl
      obtain ⟨lon, hlon⟩ := Option.isSome_iff_exists.mp h0
      obtain ⟨lat, hlat⟩ := Option.isSome_iff_exists.mp h1
      refine ⟨(lat, lon) :: cs, ?_⟩
      rw [parseToks,
        show parseTok t = .ok (some (lat, lon)) from by
          rw [parseTok, if_pos (by simpa [tokFields] using hl)]
          simp only [tokFields] at hlon hlat
          rw [hlon, hlat],
        exc_bind_ok, hcs, exc_bind_ok]
    · refine ⟨cs, ?_⟩
      rw [parseToks,
        show parseTok t = .ok none from by
          rw [parseTok, if_neg (by simpa [tokFields] using hl)],
        exc_bind_ok, hcs, exc_bind_ok]

/-- C3 (amended): a token with fewer than 2 comma-separated fields is
skipped without failing the rest of the parse, and when every token with
at least 2 fields has numeric first two fields, `parse_coordinates`
succeeds.  (The unamended claim — `parse_coordinates` never fails — is
false: see the counterexample.) -/
theorem parse_coordinates_skips_short_tokens :
    (∀ tok, (tokFields tok).length < 2 →
      ∀ ts₁ ts₂, parseToks (ts₁ ++ tok :: ts₂) = parseToks (ts₁ ++ ts₂))
    ∧ (∀ s : String, (∀ tok ∈ wsTokens s.data, 2 ≤ (tokFields tok).length →
        (pyFloatQ ((tokFields tok).getD 0 [])).isSome = true
        ∧ (pyFloatQ ((tokFields tok).getD 1 [])).isSome = true) →
      (parse_coordinates s).isOk = true) := by
  constructor
  · exact fun tok h => parseToks_skip tok h
  · intro s h
    obtain ⟨cs, hcs⟩ := parseToks_total (wsTokens s.data) h
    rw [parse_coordinates, hcs]
    rfl

/-- Witness for C3 at concrete inputs: the 1-field token `"7"` is
skipped, and a text whose long tokens are numeric parses. -/
theorem parse_coordinates_skips_short_tokens_witness :
    ((tokFields "7".data).length < 2
      ∧ parseToks (["1,2".data] ++ "7".data :: ["3,4".data])
          = parseToks (["1,2".data] ++ ["3,4".data]))
    ∧ ((∀ tok ∈ wsTokens " 1,2 7 3,4 ".data, 2 ≤ (tokFields tok).length →
        (pyFloatQ ((tokFields tok).getD 0 [])).isSome = true
        ∧ (pyFloatQ ((tokFields tok).getD 1 [])).isSome = true)
      ∧ (parse_coordinates " 1,2 7 3,4 ").isOk = true) :=
  ⟨⟨by decide, parse_coordinates_skips_short_tokens.1 "7".data (by decide)
      ["1,2".data] ["3,4".data]⟩,
   ⟨by decide, parse_coordinates_skips_short_tokens.2 " 1,2 7 3,4 " (by decide)⟩⟩

/-- C3 counterexample: `parse_coordinates` is not total — a token with
two non-numeric fields raises `ValueError` (here: fails), and a
placemark holding such a ring fails with it rather than yielding a
feature from the parsable tokens. -/
theorem parse_coordinates_fails_on_nonnumeric_token :
    (parse_coordinates "abc,def").isOk = false
    ∧ (parse_polygon pmBad).isOk = false := by
  constructor <;> decide
/-! ## Claim theorems C4 (coordinate order) and C5 (ring filtering) -/

theorem parseToks_map : ∀ ts, (∀ t ∈ ts, goodTok t) →
    parseToks ts = .ok (ts.map (fun t => (tokLat t, tokLon t))) := by
  intro ts
  induction ts with
  | nil => exact fun _ => rfl
  | cons t ts ih =>
    intro h
    obtain ⟨hl, h0, h1⟩ := h t (List.mem_cons_self t ts)
    obtain ⟨lon, hlon⟩ := Option.isSome_iff_exists.mp h0
    obtain ⟨lat, hlat⟩ := Option.isSome_iff_exists.mp h1
    rw [List.map_cons, parseToks,
      show parseTok t = .ok (some (lat, lon)) from by
        rw [parseTok, if_pos (by simpa [tokFields] using hl)]
        simp only [tokFields] at hlon hlat
        rw [hlon, hlat],
      exc_bind_ok, ih (fun x hx => h x (List.mem_cons_of_mem t hx)), exc_bind_ok]
    have elat : tokLat t = lat := by rw [tokLat, hlat]; rfl
    have elon : tokLon t = lon := by rw [tokLon, hlon]; rfl
    rw [elat, elon]

/-- C4: `parse_coordinates` keeps input order, swaps each `lon,lat[,alt]`
token to `(lat, lon)` ignoring any further fields, and on the spec's
scenario text yields exactly `[[26.07,-98.20],[26.08,-98.21],[26.08,-98.20]]`. -/
theorem parse_coordinates_swaps_lon_lat :
    parse_coordinates "-98.20,26.07 -98.21,26.08 -98.20,26.08"
      = .ok [(26.07, -98.20), (26.08, -98.21), (26.08, -98.20)]
    ∧ ∀ s : String, (∀ tok ∈ wsTokens s.data, goodTok tok) →
      parse_coordinates s = .ok ((wsTokens s.data).map (fun tok => (tokLat tok, tokLon tok))) := by
  have hgen : ∀ s : String, (∀ tok ∈ wsTokens s.data, goodTok tok) →
      parse_coordinates s
        = .ok ((wsTokens s.data).map (fun tok => (tokLat tok, tokLon tok))) := by
    intro s h
    rw [parse_coordinates, parseToks_map _ h]
  refine ⟨?_, hgen⟩
  rw [hgen _ (by decide)]
  rw [show wsTokens "-98.20,26.07 -98.21,26.08 -98.20,26.08".data
      = ["-98.20,26.07".data, "-98.21,26.08".data, "-98.20,26.08".data] from by decide]
  simp only [List.map_cons, List.map_nil]
  have d1 : digitsVal ['2', '6'] = 26 := by decide
  have d2 : digitsVal ['0', '7'] = 7 := by decide
  have d3 : digitsVal ['9', '8'] = 98 := by decide
  have d4 : digitsVal ['2', '0'] = 20 := by decide
  have d5 : digitsVal ['0', '8'] = 8 := by decide
  have d6 : digitsVal ['2', '1'] = 21 := by decide
  have e1 : tokLat "-98.20,26.07".data = 26.07 := by
    rw [show tokLat "-98.20,26.07".data
        = 1 * ((digitsVal ['2', '6'] : ℚ) + (digitsVal ['0', '7'] : ℚ) / (10 : ℚ) ^ 2) from rfl,
      d1, d2]
    norm_num
  have e2 : tokLon "-98.20,26.07".data = -98.20 := by
    rw [show tokLon "-98.20,26.07".data
        = -1 * ((digitsVal ['9', '8'] : ℚ) + (digitsVal ['2', '0'] : ℚ) / (10 : ℚ) ^ 2) from rfl,
      d3, d4]
    norm_num
  have e3 : tokLat "-98.21,26.08".data = 26.08 := by
    rw [show tokLat "-98.21,26.08".data
        = 1 * ((digitsVal ['2', '6'] : ℚ) + (digitsVal ['0', '8'] : ℚ) / (10 : ℚ) ^ 2) from rfl,
      d1, d5]
    norm_num
  have e4 : tokLon "-98.21,26.08".data = -98.21 := by
    rw [show tokLon "-98.21,26.08".data
        = -1 * ((digitsVal ['9', '8'] : ℚ) + (digitsVal ['2', '1'] : ℚ) / (10 : ℚ) ^ 2) from rfl,
      d3, d6]
    norm_num
  have e5 : tokLat "-98.20,26.08".data = 26.08 := by
    rw [show tokLat "-98.20,26.08".data
        = 1 * ((digitsVal ['2', '6'] : ℚ) + (digitsVal ['0', '8'] : ℚ) / (10 : ℚ) ^ 2) from rfl,
      d1, d5]
    norm_num
  have e6 : tokLon "-98.20,26.08".data = -98.20 := by
    rw [show tokLon "-98.20,26.08".data
        = -1 * ((digitsVal ['9', '8'] : ℚ) + (digitsVal ['2', '0'] : ℚ) / (10 : ℚ) ^ 2) from rfl,
      d3, d4]
    norm_num
  rw [e1, e2, e3, e4, e5, e6]

/-- Witness for C4's universally quantified part at a token with an
altitude field. -/
theorem parse_coordinates_swaps_lon_lat_witness :
    (∀ tok ∈ wsTokens "3,4,99".data, goodTok tok)
    ∧ parse_coordinates "3,4,99"
        = .ok ((wsTokens "3,4,99".data).map (fun tok => (tokLat tok, tokLon tok))) :=
  ⟨by decide, parse_coordinates_swaps_lon_lat.2 "3,4,99" (by decide)⟩

theorem polyGeoms_spec : ∀ ps, (∀ t ∈ ringTextsL ps, (parse_coordinates t).isOk = true) →
    ∃ gs, polyGeoms ps = .ok gs
      ∧ (∀ g ∈ gs, 3 ≤ g.coordinates.length ∧ g.geometry = "Polygon")
      ∧ ∀ t ∈ ringTextsL ps, ∀ cs, parse_coordinates t = .ok cs →
          (3 ≤ cs.length ↔ (⟨cs, "Polygon"⟩ : Geom) ∈ gs) := by
  intro ps
  induction ps with
  | nil => exact fun _ => ⟨[], rfl, by simp, by simp [ringTextsL]⟩
  | cons p ps ih =>
    intro h
    cases ho : p.outer with
    | none =>
      have hr : ringTextsL (p :: ps) = ringTextsL ps := by
        simp [ringTextsL, List.filterMap_cons, ho]
      rw [hr] at h
      obtain ⟨gs, hgs, hall, hiff⟩ := ih h
      refine ⟨gs, ?_, hall, by rw [hr]; exact hiff⟩
      rw [polyGeoms, ho]
      exact hgs
    | some t =>
      by_cases hemp : t.data.isEmpty
      · have hdata : t.data = [] := List.isEmpty_iff.mp hemp
        have hr : ringTextsL (p :: ps) = ringTextsL ps := by
          simp [ringTextsL, List.filterMap_cons, ho, hdata]
        rw [hr] at h
        obtain ⟨gs, hgs, hall, hiff⟩ := ih h
        refine ⟨gs, ?_, hall, by rw [hr]; exact hiff⟩
        simp [polyGeoms, ho, hemp, hgs]
      · have hdata : t.data ≠ [] := by simpa [List.isEmpty_iff] using hemp
        have hr : ringTextsL (p :: ps) = t :: ringTextsL ps := by
          simp [ringTextsL, List.filterMap_cons, ho, hdata]
        rw [hr] at h
        have hok := h t (List.mem_cons_self t _)
        obtain ⟨cs₀, hcs₀⟩ : ∃ cs₀, parse_coordinates t = .ok cs₀ := by
          cases hc : parse_coordinates t with
          | error e => rw [hc] at hok; exact Bool.noConfusion hok
          | ok v => exact ⟨v, rfl⟩
        obtain ⟨gs, hgs, hall, hiff⟩ := ih (fun x hx => h x (List.mem_cons_of_mem t hx))
        by_cases h3 : 3 ≤ cs₀.length
        · refine ⟨⟨cs₀, "Polygon"⟩ :: gs, ?_, ?_, ?_⟩
          · simp only [polyGeoms, ho]
            rw [if_pos (by simpa using hemp), hcs₀, exc_bind_ok, hgs,
              exc_bind_ok, if_pos h3]
          · intro g hg
            rcases List.mem_cons.mp hg with hg | hg
            · rw [hg]; exact ⟨h3, rfl⟩
            · exact hall g hg
          · rw [hr]
            intro t' ht' cs hcs
            rcases List.mem_cons.mp ht' with ht' | ht'
            · subst ht'
              rw [hcs₀] at hcs
              obtain rfl : cs₀ = cs := by
                simpa using hcs
              exact ⟨fun _ => List.mem_cons_self _ _, fun _ => h3⟩
            · have hiff' := hiff t' ht' cs hcs
              constructor
              · exact fun h3' => List.mem_cons_of_mem _ (hiff'.mp h3')
              · intro hmem
                rcases List.mem_cons.mp hmem with hmem | hmem
                · obtain ⟨rfl, -⟩ := Geom.mk.inj hmem
                  exact h3
                · exact hiff'.mpr hmem
        · refine ⟨gs, ?_, hall, ?_⟩
          · simp only [polyGeoms, ho]
            rw [if_pos (by simpa using hemp), hcs₀, exc_bind_ok, hgs,
              exc_bind_ok, if_neg h3]
          · rw [hr]
            intro t' ht' cs hcs
            rcases List.mem_cons.mp ht' with ht' | ht'
            · subst ht'
              rw [hcs₀] at hcs
              obtain rfl : cs₀ = cs := by
                simpa using hcs
              exact ⟨fun h3' => absurd h3' h3, fun hmem => (hall _ hmem).1⟩
            · exact hiff t' ht' cs hcs

/-- C5: when its ring texts parse, `parse_polygon` succeeds and keeps
exactly the rings whose parsed coordinate list has at least 3 points —
so a 2-point ring is dropped and a 3-point ring is kept. -/
theorem parse_polygon_keeps_rings_with_three_points (pm : Placemark)
    (h : ∀ t ∈ ringTexts pm, (parse_coordinates t).isOk = true) :
    ∃ gs, parse_polygon pm = .ok gs
      ∧ (∀ g ∈ gs, 3 ≤ g.coordinates.length ∧ g.geometry = "Polygon")
      ∧ ∀ t ∈ ringTexts pm, ∀ cs, parse_coordinates t = .ok cs →
          (3 ≤ cs.length ↔ (⟨cs, "Polygon"⟩ : Geom) ∈ gs) :=
  polyGeoms_spec pm.polygons h

/-- Witness for C5 at a placemark holding a 2-point ring and a 3-point
ring. -/
theorem parse_polygon_keeps_rings_with_three_points_witness :
    (∀ t ∈ ringTexts pmW, (parse_coordinates t).isOk = true)
    ∧ ∃ gs, parse_polygon pmW = .ok gs
      ∧ (∀ g ∈ gs, 3 ≤ g.coordinates.length ∧ g.geometry = "Polygon")
      ∧ ∀ t ∈ ringTexts pmW, ∀ cs, parse_coordinates t = .ok cs →
          (3 ≤ cs.length ↔ (⟨cs, "Polygon"⟩ : Geom) ∈ gs) :=
  ⟨by decide, parse_polygon_keeps_rings_with_three_points pmW (by decide)⟩
/-! ## Claim theorems C6 (empty statistics), C8 (round-trip), C10 (rounding) -/

/-- C6: on a document with no coordinates — with the well-formedness
every assembled output has, that forces `lots: []` — `compute_stats`
returns zero feature/geometry counts and `(0,0)` for the latitude,
longitude and local-meter ranges; being a total function it never fails
or divides by zero. -/
theorem compute_stats_empty_safe (doc : OutputDoc)
    (h1 : noCoordinates doc) (h2 : lotsWellFormed doc) :
    compute_stats doc =
      { num_lots := 0, num_polygons := 0, by_layer := []
      , by_geometry := [("Polygon", 0), ("LineString", 0), ("Point", 0)]
      , lat_range := (0, 0), lon_range := (0, 0)
      , y_range_m := (0, 0), x_range_m := (0, 0) } := by
  obtain ⟨v, gen, src, tr, ly, lots⟩ := doc
  replace h1 : allCoords lots = [] := h1
  replace h2 : ∀ lot ∈ lots, lot.polygons ≠ [] ∧ ∀ g ∈ lot.polygons, g.coordinates ≠ [] := h2
  cases lots with
  | nil => rfl
  | cons lot rest =>
    exfalso
    obtain ⟨hpoly, hcoords⟩ := h2 lot (List.mem_cons_self _ _)
    cases hp : lot.polygons with
    | nil => exact hpoly hp
    | cons g gs =>
      rw [allCoords, List.foldr_cons, hp, List.foldr_cons] at h1
      exact hcoords g (by rw [hp]; exact List.mem_cons_self _ _)
        (List.append_eq_nil.mp h1).1

/-- Witness for C6 at a document with `lots: []`. -/
theorem compute_stats_empty_safe_witness :
    (noCoordinates emptyDocW ∧ lotsWellFormed emptyDocW)
    ∧ compute_stats emptyDocW =
      { num_lots := 0, num_polygons := 0, by_layer := []
      , by_geometry := [("Polygon", 0), ("LineString", 0), ("Point", 0)]
      , lat_range := (0, 0), lon_range := (0, 0)
      , y_range_m := (0, 0), x_range_m := (0, 0) } :=
  ⟨⟨by decide, by decide⟩, compute_stats_empty_safe emptyDocW (by decide) (by decide)⟩

/-- C8: inverting the Coordinate Transformer's affine map recovers the
original geodetic coordinate — exactly, in particular within `1e-9`
degrees. -/
theorem transform_roundtrip (lat lon : ℚ) :
    |localY lat / METERS_PER_DEG_LAT + PHARR_LAT - lat| ≤ 1 / 10 ^ 9
    ∧ |localX lon / METERS_PER_DEG_LON + PHARR_LON - lon| ≤ 1 / 10 ^ 9 := by
  constructor
  · have hm : METERS_PER_DEG_LAT ≠ 0 := by norm_num [METERS_PER_DEG_LAT]
    rw [localY, mul_div_cancel_right₀ _ hm,
      show lat - PHARR_LAT + PHARR_LAT - lat = 0 from by ring, abs_zero]
    norm_num
  · have hm : METERS_PER_DEG_LON ≠ 0 := by norm_num [METERS_PER_DEG_LON]
    rw [localX, mul_div_cancel_right₀ _ hm,
      show lon - PHARR_LON + PHARR_LON - lon = 0 from by ring, abs_zero]
    norm_num

/-- C10: the output's `transform.meters_per_deg_lon` is the constant
rounded to 2 decimals, which differs from the unrounded constant the
Statistics Aggregator uses for its local-meter bounding box; hence
inverting the aggregator's `x` for the point one degree east of the
origin with the serialized constant does not recover that longitude. -/
theorem serialized_meters_per_deg_lon_rounded :
    (∀ raws kmz lf d, (build_lots_json raws kmz lf d).transform.meters_per_deg_lon
        = pyRound2 METERS_PER_DEG_LON)
    ∧ pyRound2 METERS_PER_DEG_LON ≠ METERS_PER_DEG_LON
    ∧ (compute_stats docC10).x_range_m.1 = localX lonC10
    ∧ (compute_stats docC10).x_range_m.1 / pyRound2 METERS_PER_DEG_LON + PHARR_LON ≠ lonC10 := by
  have hfloor : (⌊METERS_PER_DEG_LON * 100⌋ : ℤ) = 9999687 := by
    norm_num [METERS_PER_DEG_LON, Int.floor_eq_iff]
  have hpy : pyRound2 METERS_PER_DEG_LON = 2499922 / 25 := by
    rw [pyRound2, roundHalfEven, hfloor,
      if_neg (by norm_num [METERS_PER_DEG_LON]), round_eq]
    norm_num [METERS_PER_DEG_LON, Int.floor_eq_iff]
  have hx : (compute_stats docC10).x_range_m.1 = localX lonC10 := rfl
  refine ⟨fun raws kmz lf d => rfl, ?_, hx, ?_⟩
  · rw [hpy]
    norm_num [METERS_PER_DEG_LON]
  · rw [hx, hpy, localX, lonC10]
    norm_num [METERS_PER_DEG_LON, PHARR_LON]
/-! ## Claim theorem C7 (archive reading) -/

theorem find?_key_nodup : ∀ (entries : List (String × String)) (k v : String),
    (entries.map (fun e => e.1)).Nodup → (k, v) ∈ entries →
    entries.find? (fun e => e.1 == k) = some (k, v) := by
  intro entries
  induction entries with
  | nil => intro k v _ hm; simp at hm
  | cons e rest ih =>
    intro k v hn hm
    rcases List.mem_cons.mp hm with he | hm'
    · rw [← he]
      exact List.find?_cons_of_pos _ (by simp)
    · by_cases hpk : e.1 = k
      · exfalso
        rw [List.map_cons, List.nodup_cons] at hn
        exact hn.1 (hpk ▸ List.mem_map.mpr ⟨(k, v), hm', rfl⟩)
      · rw [List.find?_cons_of_neg _ (by simp [hpk])]
        rw [List.map_cons, List.nodup_cons] at hn
        exact ih k v hn.2 hm'

theorem filter_map_head (p : String → Bool) :
    ∀ (l : List (String × String)) (e : String × String),
      l.find? (fun x => p x.1) = some e →
      ((l.map (fun x => x.1)).filter p).head? = some e.1 := by
  intro l
  induction l with
  | nil => intro e h; simp at h
  | cons x l ih =>
    intro e h
    by_cases hp : p x.1
    · rw [List.find?_cons_of_pos _ (by simpa using hp)] at h
      obtain rfl : x = e := by simpa using h
      simp [List.filter_cons, hp]
    · rw [List.find?_cons_of_neg _ (by simpa using hp)] at h
      simp only [List.map_cons, List.filter_cons, if_neg hp]
      exact ih e h

/-- C7: `extract_kml_from_kmz` fails (with the no-KML error) exactly when
no entry name ends in `.kml`; on archives with distinct entry names it
returns the content of `doc.kml` when present, else the content of the
first `.kml` entry. -/
theorem extract_kml_selection (entries : List (String × String)) :
    (extract_kml_from_kmz entries = .error .noKml ↔ ∀ e ∈ entries, isKmlName e.1 = false)
    ∧ ((entries.map (fun e => e.1)).Nodup →
        (∀ content, ("doc.kml", content) ∈ entries → extract_kml_from_kmz entries = .ok content)
        ∧ ("doc.kml" ∉ entries.map (fun e => e.1) →
            ∀ e, entries.find? (fun x => isKmlName x.1) = some e →
              extract_kml_from_kmz entries = .ok e.2)) := by
  simp only [extract_kml_from_kmz]
  by_cases hk : ((entries.map (fun e => e.1)).filter isKmlName).isEmpty
  · rw [if_pos hk]
    rw [List.isEmpty_iff] at hk
    have hnone : ∀ e ∈ entries, isKmlName e.1 = false := by
      intro e he
      by_contra hne
      have ht : isKmlName e.1 = true := by simpa using hne
      have hmem : e.1 ∈ (entries.map (fun e => e.1)).filter isKmlName :=
        List.mem_filter.mpr ⟨List.mem_map.mpr ⟨e, he, rfl⟩, ht⟩
      rw [hk] at hmem
      simp at hmem
    refine ⟨⟨fun _ => hnone, fun _ => rfl⟩, fun hn => ⟨?_, ?_⟩⟩
    · intro content hmem
      have hf : isKmlName "doc.kml" = false := hnone ("doc.kml", content) hmem
      exact absurd hf (by decide)
    · intro _ e he
      have hp := List.find?_some he
      have hmem := List.mem_of_find?_eq_some he
      rw [hnone e hmem] at hp
      exact absurd hp (by simp)
  · rw [if_neg hk]
    have hne : (entries.map (fun e => e.1)).filter isKmlName ≠ [] := by
      simpa [List.isEmpty_iff] using hk
    refine ⟨⟨fun h => Except.noConfusion h, fun hall => ?_⟩, fun hn => ⟨?_, ?_⟩⟩
    · exfalso
      obtain ⟨n, hnmem⟩ := List.exists_mem_of_ne_nil _ hne
      obtain ⟨hmap, hp⟩ := List.mem_filter.mp hnmem
      obtain ⟨e, he, rfl⟩ := List.mem_map.mp hmap
      rw [hall e he] at hp
      exact absurd hp (by simp)
    · intro content hmem
      have hcont : ((entries.map (fun e => e.1)).filter isKmlName).contains "doc.kml" = true := by
        have hmemf : "doc.kml" ∈ (entries.map (fun e => e.1)).filter isKmlName :=
          List.mem_filter.mpr ⟨List.mem_map.mpr ⟨("doc.kml", content), hmem, rfl⟩, by decide⟩
        exact List.elem_eq_true_of_mem hmemf
      rw [hcont, if_pos rfl, find?_key_nodup entries "doc.kml" content hn hmem]
      rfl
    · intro hdoc e he
      have hmem := List.mem_of_find?_eq_some he
      have hcont : ((entries.map (fun e => e.1)).filter isKmlName).contains "doc.kml" = false := by
        by_contra hc
        have hc' : ((entries.map (fun e => e.1)).filter isKmlName).contains "doc.kml" = true := by
          simpa using hc
        have := List.mem_filter.mp (List.mem_of_elem_eq_true hc')
        exact hdoc this.1
      have hh := filter_map_head isKmlName entries e he
      have hhd : ((entries.map (fun e => e.1)).filter isKmlName).headD "" = e.1 := by
        cases hfl : (entries.map (fun e => e.1)).filter isKmlName with
        | nil => rw [hfl] at hh; simp at hh
        | cons a t =>
          rw [hfl] at hh
          simp only [List.head?_cons, Option.some.injEq] at hh
          simp [hh]
      rw [hcont, if_neg (by simp), hhd,
        find?_key_nodup entries e.1 e.2 hn (by simpa using hmem)]
      rfl

/-- Witness for C7 on three concrete archives: no `.kml` entry,
`doc.kml` present, and `.kml` entries without `doc.kml`. -/
theorem extract_kml_selection_witness :
    extract_kml_from_kmz entriesNoKml = .error .noKml
    ∧ extract_kml_from_kmz entriesDoc = .ok "D"
    ∧ extract_kml_from_kmz entriesFirst = .ok "B" :=
  ⟨(extract_kml_selection entriesNoKml).1.mpr (by decide),
   ((extract_kml_selection entriesDoc).2 (by decide)).1 "D" (by decide),
   ((extract_kml_selection entriesFirst).2 (by decide)).2 (by decide) ("b.kml", "B") (by decide)⟩
/-! ## Every assembled output is well-formed (grounds the C6 hypothesis):
each kept geometry carries at least one coordinate. -/

theorem polyGeoms_coords : ∀ ps gs, polyGeoms ps = .ok gs → ∀ g ∈ gs, g.coordinates ≠ [] := by
  intro ps
  induction ps with
  | nil =>
    intro gs h g hg
    simp only [polyGeoms, Except.ok.injEq] at h
    subst h
    simp at hg
  | cons p ps ih =>
    intro gs h g hg
    cases ho : p.outer with
    | none =>
      simp only [polyGeoms, ho] at h
      exact ih gs h g hg
    | some t =>
      by_cases hemp : t.data.isEmpty
      · simp only [polyGeoms, ho, hemp, Bool.not_true, Bool.false_eq_true, if_false] at h
        exact ih gs h g hg
      · simp only [polyGeoms, ho] at h
        rw [if_pos (by simpa using hemp)] at h
        cases hc : parse_coordinates t with
        | error e => rw [hc, exc_bind_err] at h; exact absurd h (by simp)
        | ok cs =>
          rw [hc, exc_bind_ok] at h
          cases hps : polyGeoms ps with
          | error e => rw [hps, exc_bind_err] at h; exact absurd h (by simp)
          | ok tl =>
            rw [hps, exc_bind_ok] at h
            by_cases h3 : 3 ≤ cs.length
            · rw [if_pos h3, Except.ok.injEq] at h
              subst h
              rcases List.mem_cons.mp hg with hg | hg
              · subst hg
                exact List.ne_nil_of_length_pos (by simpa using Nat.lt_of_lt_of_le (by norm_num) h3)
              · exact ih tl hps g hg
            · rw [if_neg h3, Except.ok.injEq] at h
              subst h
              exact ih tl hps g hg

theorem lineGeoms_coords : ∀ ps gs, lineGeoms ps = .ok gs → ∀ g ∈ gs, g.coordinates ≠ [] := by
  intro ps
  induction ps with
  | nil =>
    intro gs h g hg
    simp only [lineGeoms, Except.ok.injEq] at h
    subst h
    simp at hg
  | cons p ps ih =>
    intro gs h g hg
    cases ho : p.text with
    | none =>
      simp only [lineGeoms, ho] at h
      exact ih gs h g hg
    | some t =>
      by_cases hemp : t.data.isEmpty
      · simp only [lineGeoms, ho, hemp, Bool.not_true, Bool.false_eq_true, if_false] at h
        exact ih gs h g hg
      · simp only [lineGeoms, ho] at h
        rw [if_pos (by simpa using hemp)] at h
        cases hc : parse_coordinates t with
        | error e => rw [hc, exc_bind_err] at h; exact absurd h (by simp)
        | ok cs =>
          rw [hc, exc_bind_ok] at h
          cases hps : lineGeoms ps with
          | error e => rw [hps, exc_bind_err] at h; exact absurd h (by simp)
          | ok tl =>
            rw [hps, exc_bind_ok] at h
            by_cases h2 : 2 ≤ cs.length
            · rw [if_pos h2, Except.ok.injEq] at h
              subst h
              rcases List.mem_cons.mp hg with hg | hg
              · subst hg
                exact List.ne_nil_of_length_pos (by simpa using Nat.lt_of_lt_of_le (by norm_num) h2)
              · exact ih tl hps g hg
            · rw [if_neg h2, Except.ok.injEq] at h
              subst h
              exact ih tl hps g hg

theorem pointGeoms_coords : ∀ ps gs, pointGeoms ps = .ok gs → ∀ g ∈ gs, g.coordinates ≠ [] := by
  intro ps
  induction ps with
  | nil =>
    intro gs h g hg
    simp only [pointGeoms, Except.ok.injEq] at h
    subst h
    simp at hg
  | cons p ps ih =>
    intro gs h g hg
    cases ho : p.text with
    | none =>
      simp only [pointGeoms, ho] at h
      exact ih gs h g hg
    | some t =>
      by_cases hemp : t.data.isEmpty
      · simp only [pointGeoms, ho, hemp, Bool.not_true, Bool.false_eq_true, if_false] at h
        exact ih gs h g hg
      · simp only [pointGeoms, ho] at h
        rw [if_pos (by simpa using hemp)] at h
        cases hc : parse_coordinates t with
        | error e => rw [hc, exc_bind_err] at h; exact absurd h (by simp)
        | ok cs =>
          rw [hc, exc_bind_ok] at h
          cases hps : pointGeoms ps with
          | error e => rw [hps, exc_bind_err] at h; exact absurd h (by simp)
          | ok tl =>
            rw [hps, exc_bind_ok] at h
            cases cs with
            | nil =>
              rw [Except.ok.injEq] at h
              subst h
              exact ih tl hps g hg
            | cons c cs' =>
              rw [Except.ok.injEq] at h
              subst h
              rcases List.mem_cons.mp hg with hg | hg
              · subst hg; simp
              · exact ih tl hps g hg

theorem geomsFor_coords (cfg : LayerCfg) (pm : Placemark) :
    ∀ gs, geomsFor cfg pm = .ok gs → ∀ g ∈ gs, g.coordinates ≠ [] := by
  intro gs h
  unfold geomsFor at h
  split at h
  · exact polyGeoms_coords pm.polygons gs h
  · split at h
    · exact lineGeoms_coords pm.linestrings gs h
    · split at h
      · exact pointGeoms_coords pm.points gs h
      · rw [Except.ok.injEq] at h
        subst h
        simp

theorem featuresFrom_coords (cfg : LayerCfg) : ∀ pms rs, featuresFrom cfg pms = .ok rs →
    ∀ r ∈ rs, ∀ g ∈ r.polygons, g.coordinates ≠ [] := by
  intro pms
  induction pms with
  | nil =>
    intro rs h r hr
    simp only [featuresFrom, Except.ok.injEq] at h
    subst h
    simp at hr
  | cons pm rest ih =>
    intro rs h r hr
    simp only [featuresFrom] at h
    split at h
    · exact ih rs h r hr
    · cases hg : geomsFor cfg pm with
      | error e => rw [hg, exc_bind_err] at h; exact absurd h (by simp)
      | ok geoms =>
        rw [hg, exc_bind_ok] at h
        cases ht : featuresFrom cfg rest with
        | error e => rw [ht, exc_bind_err] at h; exact absurd h (by simp)
        | ok tl =>
          rw [ht, exc_bind_ok] at h
          by_cases hge : geoms.isEmpty
          · rw [if_pos hge, Except.ok.injEq] at h
            subst h
            exact ih tl ht r hr
          · rw [if_neg hge, Except.ok.injEq] at h
            subst h
            rcases List.mem_cons.mp hr with hr | hr
            · subst hr
              exact geomsFor_coords cfg pm geoms hg
            · exact ih tl ht r hr

theorem extract_layer_coords (doc : KmlDoc) (fid : String) (cfg : LayerCfg) :
    ∀ rs, extract_layer doc fid cfg = .ok rs →
    ∀ r ∈ rs, ∀ g ∈ r.polygons, g.coordinates ≠ [] := by
  intro rs h r hr
  unfold extract_layer at h
  cases hf : doc.folders.find? (fun f => f.id == fid) with
  | none =>
    rw [hf, Except.ok.injEq] at h
    subst h
    simp at hr
  | some f =>
    rw [hf] at h
    exact featuresFrom_coords cfg f.placemarks rs h r hr

theorem layersFrom_coords (doc : KmlDoc) (lfil : Option (List String)) :
    ∀ cfgs rs, layersFrom doc lfil cfgs = .ok rs →
    ∀ r ∈ rs, ∀ g ∈ r.polygons, g.coordinates ≠ [] := by
  intro cfgs
  induction cfgs with
  | nil =>
    intro rs h r hr
    simp only [layersFrom, Except.ok.injEq] at h
    subst h
    simp at hr
  | cons p rest ih =>
    intro rs h r hr
    simp only [layersFrom] at h
    split at h
    · exact ih rs h r hr
    · cases hg : extract_layer doc p.1 p.2 with
      | error e => rw [hg, exc_bind_err] at h; exact absurd h (by simp)
      | ok fs =>
        rw [hg, exc_bind_ok] at h
        cases ht : layersFrom doc lfil rest with
        | error e => rw [ht, exc_bind_err] at h; exact absurd h (by simp)
        | ok tl =>
          rw [ht, exc_bind_ok, Except.ok.injEq] at h
          subst h
          rcases List.mem_append.mp hr with hr | hr
          · exact extract_layer_coords doc p.1 p.2 fs hg r hr
          · exact ih tl ht r hr

theorem placemarksLegacy_coords : ∀ pms rs, placemarksLegacy pms = .ok rs →
    ∀ r ∈ rs, ∀ g ∈ r.polygons, g.coordinates ≠ [] := by
  intro pms
  induction pms with
  | nil =>
    intro rs h r hr
    simp only [placemarksLegacy, Except.ok.injEq] at h
    subst h
    simp at hr
  | cons pm rest ih =>
    intro rs h r hr
    rw [placemarksLegacy] at h
    cases hg : parse_polygon pm with
    | error e => rw [hg, exc_bind_err] at h; exact absurd h (by simp)
    | ok polys =>
      rw [hg, exc_bind_ok] at h
      cases ht : placemarksLegacy rest with
      | error e => rw [ht, exc_bind_err] at h; exact absurd h (by simp)
      | ok tl =>
        rw [ht, exc_bind_ok] at h
        by_cases hge : polys.isEmpty
        · rw [if_pos hge, Except.ok.injEq] at h
          subst h
          exact ih tl ht r hr
        · rw [if_neg hge, Except.ok.injEq] at h
          subst h
          rcases List.mem_cons.mp hr with hr | hr
          · subst hr
            exact polyGeoms_coords pm.polygons polys hg
          · exact ih tl ht r hr

theorem extraction_coords (doc : KmlDoc) (lf : Option (List String)) (legacy : Bool) :
    ∀ rs, (if legacy then parse_kml_placemarks doc else parse_kml_by_layers doc lf) = .ok rs →
    ∀ r ∈ rs, ∀ g ∈ r.polygons, g.coordinates ≠ [] := by
  intro rs h
  cases legacy with
  | true =>
    rw [if_pos rfl] at h
    exact placemarksLegacy_coords _ rs h
  | false =>
    rw [if_neg (by simp)] at h
    exact layersFrom_coords doc lf LAYER_CONFIG rs h

/-- Every successful pipeline output satisfies the well-formedness that
grounds the empty-statistics claim: each lot has some geometry and each
geometry some coordinate. -/
theorem runPipeline_wellFormed (doc : KmlDoc) (legacy : Bool) (lf : Option (List String))
    (path d : String) (o : OutputDoc) (h : runPipeline doc legacy lf path d = .ok o) :
    lotsWellFormed o := by
  unfold runPipeline at h
  cases hx : (if legacy then parse_kml_placemarks doc else parse_kml_by_layers doc lf) with
  | error e => rw [hx] at h; simp [Except.map] at h
  | ok rs =>
    rw [hx] at h
    simp only [Except.map, Except.ok.injEq] at h
    subst h
    intro lot hlot
    have hb : (build_lots_json rs path lf d).lots = buildLots rs (fun _ => 0) := rfl
    rw [hb] at hlot
    obtain ⟨r, hr, c, _, _, hpoly⟩ := buildLots_mem rs _ lot hlot
    refine ⟨?_, ?_⟩
    · rw [hpoly]
      exact (extraction_raws doc lf legacy rs hx r hr).2
    · rw [hpoly]
      exact extraction_coords doc lf legacy rs hx r hr
